import Mathlib

/-!
# Verification of the schedule builder (`build.js`)

A shallow embedding of the schedule-building pipeline of the repository:
the deep-merge used for date-keyed overrides, the day/week builders, the
slot bucketing of club occurrences, and the date helpers.  Strings are
modelled as Lean `String`; JavaScript numbers appearing in this code are
integers, modelled as `Int`/`Nat`; the `NaN` produced by arithmetic on an
undefined minutes component is modelled as `Option.none`.  JavaScript
`Date` values are modelled in a fixed zero-offset locale (no DST): a date
is a local day number together with the milliseconds elapsed within that
day.  Arrays held by reference inside the input documents (the per-child
pack-code lists, which `buildDay` mutates in place) are modelled by an
explicit store of arrays, threaded through the builders.
-/

set_option linter.unusedVariables false

/-! ## JavaScript string helpers -/

/-- Whitespace as matched by `\s`/`trim` on the character set occurring in
this repository's data (space, tab, newline, carriage return). -/
def isJsSpace (c : Char) : Bool :=
  c == ' ' || c == '\t' || c == '\n' || c == '\r'

/-- `String.prototype.trim`. -/
def jsTrim (s : String) : String :=
  String.mk (((s.toList.dropWhile isJsSpace).reverse.dropWhile isJsSpace).reverse)

/-- `str.split(sep)` for a single-character separator, no limit:
`"".split(":") = [""]`, `"a:".split(":") = ["a", ""]`. -/
def jsSplitAux (sep : Char) : List Char → List Char → List String
  | [], acc => [String.mk acc.reverse]
  | c :: cs, acc =>
    if c = sep then String.mk acc.reverse :: jsSplitAux sep cs []
    else jsSplitAux sep cs (c :: acc)

def jsSplit (sep : Char) (s : String) : List String :=
  jsSplitAux sep s.toList []

/-- Longest prefix of decimal digits, as a number; `none` when there is no
digit (the `NaN` case of `parseInt`). -/
def parseDigits (cs : List Char) : Option Nat :=
  let ds := cs.takeWhile Char.isDigit
  if ds.isEmpty then none
  else some (ds.foldl (fun a c => a * 10 + (c.toNat - 48)) 0)

/-- `parseInt(s, 10)`: skip leading whitespace, optional sign, longest
digit prefix; `none` models `NaN`. -/
def jsParseInt (s : String) : Option Int :=
  let cs := s.toList.dropWhile isJsSpace
  match cs with
  | '-' :: rest => (parseDigits rest).map (fun n => -(n : Int))
  | '+' :: rest => (parseDigits rest).map (fun n => (n : Int))
  | _ => (parseDigits cs).map (fun n => (n : Int))

/-- `parseInt(x, 10) || 0`. -/
def jsParseIntOr0 (s : String) : Int :=
  (jsParseInt s).getD 0

/-- `s || dflt` for strings (the empty string is falsy). -/
def jsOr (s dflt : String) : String :=
  if s = "" then dflt else s

/-- `o?.x || dflt` — an absent value or an empty string falls back. -/
def jsOrOpt (o : Option String) (dflt : String) : String :=
  match o with
  | some s => jsOr s dflt
  | none => dflt

/-- First-match lookup in an association list, mirroring property access on
a JavaScript object (whose keys are unique). -/
def alookup {α : Type} : List (String × α) → String → Option α
  | [], _ => none
  | (k', v) :: rest, k => if k' = k then some v else alookup rest k

/-- `obj[k] = v`: update the first entry with key `k` in place (keeping
its position), or append a new entry. -/
def aset {α : Type} : List (String × α) → String → α → List (String × α)
  | [], k, v => [(k, v)]
  | (k', v') :: rest, k, v =>
    if k' = k then (k, v) :: rest else (k', v') :: aset rest k v

/-- `{...a, ...b}` for string-valued dictionaries: entries of `b` override
entries of `a`; fresh keys of `b` are appended in order. -/
def spreadPairs (a b : List (String × String)) : List (String × String) :=
  b.foldl (fun acc kv => aset acc kv.1 kv.2) a

/-- `Array.prototype.join(sep)`. -/
def joinWith (sep : String) : List String → String
  | [] => ""
  | [s] => s
  | s :: rest => s ++ sep ++ joinWith sep rest

/-! ## Date model

`build.js` manipulates `Date` objects through `getDay`, `setDate`,
`setHours(0,0,0,0)`, `getDate` and locale formatting.  We model a date in
a fixed zero-UTC-offset locale without DST: `days` is the local day
number (day 0 = 1970-01-01, a Thursday) and `ms` the milliseconds within
that day.  Under this model `setDate(getDate() + k)` is adding `k` days. -/

structure JDate where
  days : Int
  ms : Int
deriving DecidableEq

/-- `d.getDay()`: 0 = Sunday … 6 = Saturday; 1970-01-01 was a Thursday. -/
def getDay (d : JDate) : Nat :=
  ((d.days + 4) % 7).toNat

/-- `startOfWeekMonday` (build.js lines 77-84): take the weekday, walk back
6 days on Sunday and `day - 1` days otherwise, then zero the time of day. -/
def startOfWeekMonday (d : JDate) : JDate :=
  let day := getDay d
  let diff : Int := if day = 0 then -6 else 1 - (day : Int)
  { days := d.days + diff, ms := 0 }

/-- `d.setDate(d.getDate() + i)` starting from a copy, as done in
`buildWeek`'s loop. -/
def addDaysJ (d : JDate) (i : Nat) : JDate :=
  { d with days := d.days + i }

/-- `toLocaleDateString('en-US', { weekday: 'long' })`. -/
def dayNamesEn : List String :=
  ["Sunday", "Monday", "Tuesday", "Wednesday", "Thursday", "Friday", "Saturday"]

def weekdayName (d : JDate) : String :=
  dayNamesEn.getD (getDay d) ""

/-- Civil date (y, m, d) of a day number (days since 1970-01-01),
standard era-based conversion, used to model `toISOString`. -/
def civilOfDays (z0 : Int) : Int × Int × Int :=
  let z := z0 + 719468
  let era := (if 0 ≤ z then z else z - 146096).ediv 146097
  let doe := z - era * 146097
  let yoe := (doe - doe.ediv 1460 + doe.ediv 36524 - doe.ediv 146096).ediv 365
  let y := yoe + era * 400
  let doy := doe - (365 * yoe + yoe.ediv 4 - yoe.ediv 100)
  let mp := (5 * doy + 2).ediv 153
  let dd := doy - (153 * mp + 2).ediv 5 + 1
  let m := mp + (if mp < 10 then 3 else -9)
  (y + (if m ≤ 2 then 1 else 0), m, dd)

def padNum2 (n : Int) : String :=
  if n < 10 then "0" ++ toString n else toString n

def padNum4 (n : Int) : String :=
  if n < 10 then "000" ++ toString n
  else if n < 100 then "00" ++ toString n
  else if n < 1000 then "0" ++ toString n
  else toString n

/-- `isoDate` (build.js lines 53-56): with the model's zero UTC offset the
timezone correction vanishes and the result is the civil date of the
instant's day number. -/
def isoDate (d : JDate) : String :=
  let z := d.days + d.ms.ediv 86400000
  let c := civilOfDays z
  padNum4 c.1 ++ "-" ++ padNum2 c.2.1 ++ "-" ++ padNum2 c.2.2

/-- `ordinalSuffix` (build.js lines 58-67). -/
def ordinalSuffix (n : Nat) : String :=
  let v := n % 100
  if 11 ≤ v ∧ v ≤ 13 then "th"
  else match n % 10 with
    | 1 => "st"
    | 2 => "nd"
    | 3 => "rd"
    | _ => "th"

/-! ## Input documents

Typed shapes of the four input documents as `buildDay`/`buildWeek` read
them.  Objects keyed by weekday or participant name become association
lists; an absent property is `none`.  The per-participant pack-code lists
are mutated in place by `buildDay` (`packCodes.push('snack')`), so they
are held by reference: a `Nat` index into a `PackStore`, the explicit
store of all pack-code arrays reachable from the documents.  A fresh `[]`
produced by the `|| []` fallback is a new array unreachable from any
document, so it is not tracked in the store. -/

abbrev PackStore := List (List String)

structure DayRules where
  clothing : Option (List (String × String))
  pack : Option (List (String × Nat))
  dropoff : Option (List (String × String))
  pickup : Option (List (String × String))
deriving DecidableEq

def emptyDayRules : DayRules := ⟨none, none, none, none⟩

structure MetaCfg where
  clothing_labels : Option (List (String × String))
  pack_labels : Option (List (String × String))
deriving DecidableEq

structure DayConfig where
  days : Option (List (String × DayRules))
  meta : Option MetaCfg
deriving DecidableEq

structure ClubEntry where
  time : String
  club : String
  participants : Option (List String)
deriving DecidableEq

structure ClubSchedule where
  clubs : Option (List (String × List ClubEntry))
deriving DecidableEq

structure PackSchedule where
  pack : Option (List (String × List (String × Nat)))
deriving DecidableEq

/-! ## Built-in dictionaries (build.js lines 17-28) -/

def idToName : List (String × String) := [("C1", "C1"), ("C2", "C2")]

def nameToId : List (String × String) :=
  idToName.map (fun p => (p.2, p.1))

def kids : List String := idToName.map (fun p => p.2)

def defaultClothingLabels : List (String × String) :=
  [("uniform", "Uniform"), ("test_wear", "Test Wear")]

def defaultPackLabels : List (String × String) :=
  [("long1", "Library books."), ("long2", "Sports kit bag"),
   ("long3", "Water bottle"), ("snack", "Snack")]

def defaultDropoff : List (String × String) := [("C1", "08:15"), ("C2", "08:15")]

def defaultPickup : List (String × String) := [("C1", "15:45"), ("C2", "16:00")]

/-! ## `shortNameForClub` (build.js lines 86-108) -/

/-- Case-insensitive prefix test. -/
def ciStartsWith : List Char → List Char → Bool
  | [], _ => true
  | _ :: _, [] => false
  | p :: ps, c :: cs => (c.toLower == p.toLower) && ciStartsWith ps cs

/-- Index of the first case-insensitive occurrence of `pat`. -/
def ciFindIdx (pat : List Char) : List Char → Option Nat
  | [] => if pat.isEmpty then some 0 else none
  | c :: cs =>
    if ciStartsWith pat (c :: cs) then some 0
    else (ciFindIdx pat cs).map (· + 1)

/-- `String(fullName).replace(/\s*\(selective\)\s*/i, '')`: a non-global
regex removes only the first occurrence, together with the maximal
whitespace runs around it (leftmost match begins at the start of the
preceding whitespace run). -/
def stripSelective (s : String) : String :=
  let cs := s.toList
  match ciFindIdx "(selective)".toList cs with
  | none => s
  | some p =>
    let pre := (cs.take p).reverse.dropWhile isJsSpace
    let post := (cs.drop (p + 11)).dropWhile isJsSpace
    String.mk (pre.reverse ++ post)

def shortMap : List (String × String) :=
  [("KS2 Choir", "Choir"),
   ("Girls Football (Westway)", "Football"),
   ("Morning Drawing Club", "Drawing"),
   ("Chamber Choir", "Chamb. Choir"),
   ("Creative Art Club", "Art"),
   ("Orchestra", "Orchestra"),
   ("Touch-Typing", "Typing"),
   ("Technical Drawing", "Tech. Drawing"),
   ("Fencing", "Fencing"),
   ("Advanced Musicianship", "Adv. Music"),
   ("Advanced Art", "Adv. Art"),
   ("Creative Competitors", "Creative Comp."),
   ("Violin with Ms Vican", "Violin"),
   ("Ballet at St Marys", "Ballet"),
   ("Tutoring with Julia", "Tutor w/ Julia"),
   ("Dodgeball", "Dodgeball"),
   ("Netball", "Netball")]

def shortNameForClub (fullName : String) : String :=
  let cleaned := jsTrim (stripSelective fullName)
  jsOrOpt (alookup shortMap cleaned) cleaned

/-! ## Time parsing and slot bucketing (build.js lines 162-183) -/

/-- `startTime` (lines 162-166). -/
def startTime (range : String) : String :=
  if range = "" then "" else jsTrim ((jsSplit '-' range).headD "")

/-- `endTime` (lines 167-171). -/
def endTime (range : String) : String :=
  if range = "" then "" else jsTrim (((jsSplit '-' range).get? 1).getD "")

/-- `toSortNum` (lines 172-175): `h * 60 + m` where each part is
`parseInt(x, 10) || 0`; when the string has no `':'` the destructured `m`
is `undefined` and the sum is `NaN`, modelled as `none`. -/
def toSortNum (t : String) : Option Int :=
  let parts := jsSplit ':' (if t = "" then "00:00" else t)
  match parts.get? 1 with
  | some m => some (jsParseIntOr0 (parts.headD "") * 60 + jsParseIntOr0 m)
  | none => none

/-- `slotForStart` (lines 177-183); every comparison with `NaN` is false,
so a `NaN` start falls through to slot 3. -/
def slotForStart (start : String) : Nat :=
  match toSortNum start with
  | some mins =>
    if mins < 660 then 0
    else if mins < 840 then 1
    else if mins < 1020 then 2
    else 3
  | none => 3

/-- The test of line 202-205: `mins >= 900 && mins < 1020` (false on
`NaN`). -/
def inSnackWindow (s : String) : Bool :=
  match toSortNum s with
  | some mins => decide (900 ≤ mins ∧ mins < 1020)
  | none => false

/-! ## Per-child view (build.js lines 136-231) -/

structure ClubView where
  time : String
  name : String
  short_name : String
deriving DecidableEq

structure SlotDisplay where
  start : String
  «end» : String
  name : String
deriving DecidableEq

structure PackItem where
  code : String
  label : String
deriving DecidableEq

structure Clothing where
  code : Option String
  label : String
deriving DecidableEq

structure ChildView where
  clothing : Clothing
  pack : List PackItem
  dropoff : String
  pickup : String
  clubs : List ClubView
  pack_display : String
  pack_line : String
  pack_items : List String
  pack_item1 : String
  pack_item2 : String
  pack_item3 : String
  clubs_display : List SlotDisplay
  drop_display : String
  pick_display : String
deriving DecidableEq

/-- Clubs of the day whose `participants` array contains the child
(lines 153-160). -/
def clubsForChild (clubsToday : List ClubEntry) (kidName : String) : List ClubView :=
  (clubsToday.filter (fun e =>
    match e.participants with
    | some ps => ps.contains kidName
    | none => false)).map
    (fun e => ⟨e.time, e.club, shortNameForClub e.club⟩)

def placeholderSlot : SlotDisplay := ⟨"-", "-", "-"⟩

def mkSlotEntry (c : ClubView) : SlotDisplay :=
  ⟨startTime c.time, endTime c.time, c.short_name⟩

def slotIndexOf (c : ClubView) : Nat :=
  slotForStart (startTime c.time)

/-- One iteration of the loop of lines 186-193: fill the club's slot only
if it is still empty (first seen wins); the slot index is always `< 4`. -/
def fillStep (slots : List (Option SlotDisplay)) (c : ClubView) :
    List (Option SlotDisplay) :=
  match slots.get? (slotIndexOf c) with
  | some none => slots.set (slotIndexOf c) (some (mkSlotEntry c))
  | _ => slots

def fillSlots (clubs : List ClubView) : List (Option SlotDisplay) :=
  clubs.foldl fillStep [none, none, none, none]

/-- `slots[i]?.start || dflt`. -/
def jsStartOr (s : Option SlotDisplay) (dflt : String) : String :=
  match s with
  | some e => jsOr e.start dflt
  | none => dflt

/-- `slots[i]?.end || dflt`. -/
def jsEndOr (s : Option SlotDisplay) (dflt : String) : String :=
  match s with
  | some e => jsOr e.«end» dflt
  | none => dflt

/-- Lines 194-199: render the four slots (placeholder `{-,-,-}` when
empty), then overwrite slot 0's start with the drop-off anchor and slot
2's start/end with the pick-up anchor when no club claims those slots. -/
def clubsDisplayOf (clubs : List ClubView) (dropoff pickup : String) :
    List SlotDisplay :=
  let slots := fillSlots clubs
  let disp := slots.map (fun s => s.getD placeholderSlot)
  let e0 := { disp.headD placeholderSlot with
              start := jsStartOr (slots.headD none) dropoff }
  let e2 := { disp.getD 2 placeholderSlot with
              start := jsStartOr (slots.getD 2 none) pickup,
              «end» := jsEndOr (slots.getD 2 none) pickup }
  (disp.set 0 e0).set 2 e2

/-- `String.fromCharCode(0x00A0)` padding (lines 213-214). -/
def nbspStr : String := "\u00A0"

/-- `while (pack_items.length < 3) pack_items.push(' ')`. -/
def padItems (l : List String) : List String :=
  l ++ List.replicate (3 - l.length) nbspStr

/-- `pack_items[i] || ' '`. -/
def itemAt (items : List String) (i : Nat) : String :=
  jsOrOpt (items.get? i) nbspStr

/-- `{ code, label: packLabels[code] || code }` (lines 145-148). -/
def packItemOf (labels : List (String × String)) (code : String) : PackItem :=
  ⟨code, jsOrOpt (alookup labels code) code⟩

/-- The body of the per-child loop (lines 136-231).  Returns the child's
view, the pack store after the possible `packCodes.push('snack')`, and
the `packLabels` dictionary after the possible `packLabels.snack =
'Snack'` (both mutations are visible to later iterations and later
calls). -/
def mkChildView (kidName : String) (eff : DayRules) (clubsToday : List ClubEntry)
    (clothingLabels : List (String × String)) (packByDay : List (String × Nat))
    (packLabels : List (String × String)) (store : PackStore) :
    ChildView × PackStore × List (String × String) :=
  let kidId := (alookup nameToId kidName).getD ""
  let clothingCode := eff.clothing >>= fun m => alookup m kidName
  let clothingLabel :=
    match clothingCode with
    | some c => jsOrOpt (alookup clothingLabels c) c
    | none => ""
  -- lines 141-144: the codes array is taken by reference from the pack
  -- schedule, else from the day rules, else it is a fresh `[]`.
  let packRef : Option Nat :=
    match alookup packByDay kidName with
    | some r => some r
    | none => eff.pack >>= fun m => alookup m kidName
  let packCodes : List String :=
    match packRef with
    | some r => (store.get? r).getD []
    | none => []
  -- line 145: `pack` is derived here, before the snack inference below.
  let pack := packCodes.map (packItemOf packLabels)
  let dropoff :=
    jsOrOpt (eff.dropoff >>= fun m => alookup m kidName)
      ((alookup defaultDropoff kidId).getD "")
  let pickup :=
    jsOrOpt (eff.pickup >>= fun m => alookup m kidName)
      ((alookup defaultPickup kidId).getD "")
  let clubs := clubsForChild clubsToday kidName
  let clubs_display := clubsDisplayOf clubs dropoff pickup
  -- lines 201-209: snack inference over the displayed starts (anchors
  -- included); pushes onto the shared codes array.
  let hasAfternoonClub := clubs_display.any (fun c => inSnackWindow c.start)
  let fire := hasAfternoonClub && !(packCodes.contains "snack")
  let store' :=
    if fire then
      match packRef with
      | some r => store.set r (packCodes ++ ["snack"])
      | none => store
    else store
  let packLabels' :=
    if fire && ((alookup packLabels "snack").getD "" == "") then
      aset packLabels "snack" "Snack"
    else packLabels
  -- lines 211-214: all derived from `pack`, hence unaffected by the push.
  let pack_labels := pack.map (fun p => p.label)
  let pack_display := joinWith ", " pack_labels
  let pack_items := padItems pack_labels
  (⟨⟨clothingCode, clothingLabel⟩, pack, dropoff, pickup, clubs,
    pack_display, jsOr pack_display "-", pack_items,
    itemAt pack_items 0, itemAt pack_items 1, itemAt pack_items 2,
    clubs_display, dropoff, pickup⟩,
   store', packLabels')

/-! ## Day and week builders (build.js lines 123-258) -/

structure DayRecord where
  day : String
  date : String
  date_number : String
  date_suffix : String
  date_month : String
  children : List (String × ChildView)
deriving DecidableEq

/-- The `for (const kidName of kids)` loop, threading the store and the
(mutable) `packLabels` dictionary; `children[kidId] = view` appends since
the two ids are distinct. -/
def kidsLoop (eff : DayRules) (clubsToday : List ClubEntry)
    (clothingLabels : List (String × String)) (packByDay : List (String × Nat)) :
    List String → List (String × String) → PackStore →
    List (String × ChildView) × PackStore × List (String × String)
  | [], labels, st => ([], st, labels)
  | kidName :: rest, labels, st =>
    let step := mkChildView kidName eff clubsToday clothingLabels packByDay labels st
    let kidId := (alookup nameToId kidName).getD ""
    let restRes := kidsLoop eff clubsToday clothingLabels packByDay rest step.2.2 step.2.1
    ((kidId, step.1) :: restRes.1, restRes.2)

def monthNamesEn : List String :=
  ["Jan", "Feb", "Mar", "Apr", "May", "Jun",
   "Jul", "Aug", "Sep", "Oct", "Nov", "Dec"]

/-- Day-of-month of `new Date("YYYY-MM-DD")` (zero-offset model: the digits
at positions 8-9 of the ISO string). -/
def isoDayOfMonth (iso : String) : Nat :=
  (parseDigits ((iso.toList.drop 8).take 2)).getD 0

/-- `monthShort(new Date(iso))` in the zero-offset model. -/
def isoMonthShort (iso : String) : String :=
  monthNamesEn.getD ((parseDigits ((iso.toList.drop 5).take 2)).getD 0 - 1) ""

/-- `dayConfig.days?.[dayName]` (lines 124 and 253). -/
def dayRulesOf (cfg : DayConfig) (dayName : String) : Option DayRules :=
  cfg.days >>= fun m => alookup m dayName

/-- `(clubSchedule.clubs && clubSchedule.clubs[dayName]) || []` (line 126). -/
def clubsTodayOf (cs : ClubSchedule) (dayName : String) : List ClubEntry :=
  match cs.clubs with
  | some m => (alookup m dayName).getD []
  | none => []

/-- `packSchedule.pack?.[dayName] || {}` (line 129). -/
def packByDayOf (ps : PackSchedule) (dayName : String) : List (String × Nat) :=
  (ps.pack >>= fun m => alookup m dayName).getD []

/-- `buildDay` (build.js lines 123-245). -/
def buildDay (dayName isoDateString : String) (dayConfig : DayConfig)
    (clubSchedule : ClubSchedule) (packSchedule : PackSchedule)
    (store : PackStore) : DayRecord × PackStore :=
  let dayRules := dayRulesOf dayConfig dayName
  let clubsToday := clubsTodayOf clubSchedule dayName
  let clothingLabels :=
    spreadPairs defaultClothingLabels
      ((dayConfig.meta >>= fun m => m.clothing_labels).getD [])
  let packLabels :=
    spreadPairs defaultPackLabels
      ((dayConfig.meta >>= fun m => m.pack_labels).getD [])
  let packByDay := packByDayOf packSchedule dayName
  let eff := dayRules.getD emptyDayRules
  let looped := kidsLoop eff clubsToday clothingLabels packByDay kids packLabels store
  let dayNum := isoDayOfMonth isoDateString
  ({ day := dayName
     date := isoDateString
     date_number := toString dayNum
     date_suffix := ordinalSuffix dayNum
     date_month := isoMonthShort isoDateString
     children := looped.1 },
   looped.2.1)

structure WeekRecord where
  week_order : List String
  week : List (String × DayRecord)
deriving DecidableEq

/-- The loop of `buildWeek` (lines 249-256) over the day offsets. -/
def buildWeekLoop (cfg : DayConfig) (cs : ClubSchedule) (ps : PackSchedule)
    (mondayDate : JDate) :
    List Nat → List (String × DayRecord) → PackStore →
    List (String × DayRecord) × PackStore
  | [], acc, st => (acc, st)
  | i :: rest, acc, st =>
    let d := addDaysJ mondayDate i
    let dayName := weekdayName d
    match dayRulesOf cfg dayName with
    | none => buildWeekLoop cfg cs ps mondayDate rest acc st
    | some _ =>
      let iso := isoDate d
      let r := buildDay dayName iso cfg cs ps st
      buildWeekLoop cfg cs ps mondayDate rest (aset acc dayName r.1) r.2

/-- `buildWeek` (build.js lines 247-258); `week_order = Object.keys(week)`
is the insertion order of the assignments. -/
def buildWeek (mondayDate : JDate) (cfg : DayConfig) (cs : ClubSchedule)
    (ps : PackSchedule) (store : PackStore) : WeekRecord × PackStore :=
  let r := buildWeekLoop cfg cs ps mondayDate (List.range 7) [] store
  ({ week_order := r.1.map Prod.fst, week := r.1 }, r.2)

/-! ## Generic JavaScript values and `deepMerge` (build.js lines 110-121)

`deepMerge`/`applyOverrides` operate on arbitrary parsed JSON trees, so
they are modelled over a generic value type.  An array carries, besides
its elements, the expando properties a merge can attach to it through
non-index keys (plain JSON arrays have none).  Object fields are kept in
insertion order; JavaScript enumerates integer-like keys of a plain
object first, but no theorem below depends on the enumeration order of
such keys.  An out-of-range index assignment creates holes, modelled as
`undefined` elements; an array's non-own `length` property is not modelled. -/

inductive JVal where
  | undefined : JVal
  | null : JVal
  | bool : Bool → JVal
  | num : Int → JVal
  | str : String → JVal
  | arr : List JVal → List (String × JVal) → JVal
  | obj : List (String × JVal) → JVal

/-- JavaScript truthiness of a parsed value. -/
def truthy : JVal → Bool
  | .undefined => false
  | .null => false
  | .bool b => b
  | .num n => n != 0
  | .str s => s != ""
  | .arr _ _ => true
  | .obj _ => true

/-- A canonical array-index string: digits only, no leading zero. -/
def canonIdx (k : String) : Option Nat :=
  let cs := k.toList
  if cs ≠ [] ∧ cs.all Char.isDigit ∧ (cs.head? ≠ some '0' ∨ cs = ['0']) then
    parseDigits cs
  else none

/-- Index-keyed entries of an array's elements. -/
def arrEntries (i : Nat) : List JVal → List (String × JVal)
  | [] => []
  | v :: rest => (toString i, v) :: arrEntries (i + 1) rest

/-- Index-keyed single-character entries of a primitive string. -/
def charEntries (i : Nat) : List Char → List (String × JVal)
  | [] => []
  | c :: rest => (toString i, JVal.str (String.mk [c])) :: charEntries (i + 1) rest

/-- `Object.entries(v)`. -/
def entriesOf : JVal → List (String × JVal)
  | .obj fs => fs
  | .arr es ps => arrEntries 0 es ++ ps
  | .str s => charEntries 0 s.toList
  | _ => []

/-- `Array.isArray(target) ? [...target] : {...target}` (line 112): a
shallow copy; spreading an array drops its expando properties, spreading
a string yields its indexed characters, spreading any other primitive
yields an empty object. -/
def copyOf : JVal → JVal
  | .arr es _ => .arr es []
  | .obj fs => .obj fs
  | .str s => .obj (charEntries 0 s.toList)
  | _ => .obj []

/-- Property read `v[k]` (an absent property is `undefined`). -/
def jsGetKey : JVal → String → JVal
  | .obj fs, k => (alookup fs k).getD .undefined
  | .arr es ps, k =>
    (match canonIdx k with
     | some i => (es.get? i).getD ((alookup ps k).getD .undefined)
     | none => (alookup ps k).getD .undefined)
  | _, _ => .undefined

/-- Property write `v[k] = w`: on an object, update or append the field;
on an array, a canonical in-range index updates the element, the next
index appends, a larger one pads with holes (`undefined`), and any other key
becomes an expando property.  A write to a primitive is dropped. -/
def setKeyJ : JVal → String → JVal → JVal
  | .obj fs, k, w => .obj (aset fs k w)
  | .arr es ps, k, w =>
    (match canonIdx k with
     | some i =>
       if i < es.length then .arr (es.set i w) ps
       else .arr (es ++ List.replicate (i - es.length) JVal.undefined ++ [w]) ps
     | none => .arr es (aset ps k w))
  | t, _, _ => t

/-- `output[key] || {}` (line 115). -/
def jsOrEmptyV (v : JVal) : JVal :=
  if truthy v then v else .obj []

/- Depth measures, used only for the termination of `deepMerge`. -/
mutual
def jdepth : JVal → Nat
  | .undefined => 1
  | .null => 1
  | .bool _ => 1
  | .num _ => 1
  | .str _ => 1
  | .arr es ps => 1 + max (depthL es) (depthP ps)
  | .obj fs => 1 + depthP fs
def depthL : List JVal → Nat
  | [] => 0
  | v :: rest => max (jdepth v) (depthL rest)
def depthP : List (String × JVal) → Nat
  | [] => 0
  | (_, v) :: rest => max (jdepth v) (depthP rest)
end

/-- Depth of a value when it is an object, 0 otherwise. -/
def objDepth : JVal → Nat
  | .obj fs => jdepth (.obj fs)
  | _ => 0

/-- Maximal depth of the object-valued entries of a list (the only ones
`deepMerge` recurses into). -/
def edepthObj : List (String × JVal) → Nat
  | [] => 0
  | (_, v) :: rest => max (objDepth v) (edepthObj rest)

mutual
/-- `deepMerge` (build.js lines 110-121): a falsy source returns the
target unchanged; otherwise a shallow copy of the target is made and each
entry of the source is written over it, recursing exactly when the
source's value is a (truthy, non-array, non-null) object. -/
def deepMerge (target source : JVal) : JVal :=
  if h : truthy source then mergeEntries (entriesOf source) (copyOf target)
  else target
termination_by (jdepth source, 1)
decreasing_by
  -- `deepMerge` enters the entries loop: the loop's measure is below the
  -- depth of the (truthy) source.
  apply Prod.Lex.left
  have hod : ∀ w : JVal, objDepth w ≤ jdepth w := by
    intro w; cases w <;> simp [objDepth]
  have hch : ∀ i cs, edepthObj (charEntries i cs) = 0 := by
    intro i cs
    induction cs generalizing i with
    | nil => simp [charEntries, edepthObj]
    | cons c rest ih => simp [charEntries, edepthObj, objDepth, ih]
  have happ : ∀ a b : List (String × JVal),
      edepthObj (a ++ b) = max (edepthObj a) (edepthObj b) := by
    intro a b
    induction a with
    | nil => simp [edepthObj]
    | cons kv rest ih =>
      obtain ⟨k1, v1⟩ := kv
      simp [edepthObj, ih]
      omega
  have harr : ∀ i es, edepthObj (arrEntries i es) ≤ depthL es := by
    intro i es
    induction es generalizing i with
    | nil => simp [arrEntries, edepthObj]
    | cons v rest ih =>
      simp only [arrEntries, edepthObj, depthL]
      have := hod v
      have := ih (i + 1)
      omega
  have hep : ∀ l : List (String × JVal), edepthObj l ≤ depthP l := by
    intro l
    induction l with
    | nil => simp [edepthObj, depthP]
    | cons kv rest ih =>
      obtain ⟨k1, v1⟩ := kv
      simp only [edepthObj, depthP]
      have := hod v1
      omega
  cases source with
  | undefined => simp [truthy] at h
  | null => simp [truthy] at h
  | bool b => simp [entriesOf, edepthObj, jdepth]
  | num n => simp [entriesOf, edepthObj, jdepth]
  | str s => simp [entriesOf, jdepth, hch]
  | arr es ps =>
    have h1 := harr 0 es
    have h2 := hep ps
    have h3 := happ (arrEntries 0 es) ps
    simp only [entriesOf, jdepth]
    omega
  | obj fs =>
    have := hep fs
    simp only [entriesOf, jdepth]
    omega

/-- The `for (const [key, value] of Object.entries(source))` loop of
lines 113-119. -/
def mergeEntries (entries : List (String × JVal)) (output : JVal) : JVal :=
  match entries with
  | [] => output
  | (k, v) :: rest =>
    match v with
    | .obj vfs =>
      mergeEntries rest
        (setKeyJ output k (deepMerge (jsOrEmptyV (jsGetKey output k)) (.obj vfs)))
    | _ => mergeEntries rest (setKeyJ output k v)
termination_by (edepthObj entries, entries.length + 1)
decreasing_by
  -- the recursive `deepMerge` on an object-valued entry, then the two
  -- tail calls of the loop; the lexicographic comparisons are linear
  -- arithmetic over the depth measures.
  all_goals simp_wf
  all_goals simp only [Prod.lex_def, edepthObj, objDepth, List.length_cons]
  all_goals omega
end

/-- `applyOverrides` (build.js lines 260-262). -/
def applyOverrides (base overrides : JVal) : JVal :=
  deepMerge base overrides

/-! ## Heap model of `deepMerge`

The pure `deepMerge` above describes the value computed; to express that
the function never mutates its arguments, the same lines 110-121 are
modelled once more with the object heap explicit: compound values live in
cells addressed by `Nat`, and each property write names the cell it
writes to.  The recursion is bounded by a fuel parameter (heap references
may in principle be cyclic); the theorems quantify over the fuel. -/

inductive HVal where
  | undefined : HVal
  | null : HVal
  | bool : Bool → HVal
  | num : Int → HVal
  | str : String → HVal
  | ref : Nat → HVal
deriving DecidableEq

inductive HCell where
  | obj : List (String × HVal) → HCell
  | arr : List HVal → List (String × HVal) → HCell
deriving DecidableEq

abbrev HStore := List HCell

def truthyH : HVal → Bool
  | .undefined => false
  | .null => false
  | .bool b => b
  | .num n => n != 0
  | .str s => s != ""
  | .ref _ => true

/-- `value && typeof value === 'object' && !Array.isArray(value)` (line
114): the value is a reference to a non-array object cell. -/
def isMergeObjH (st : HStore) : HVal → Bool
  | .ref a =>
    (match st.get? a with
     | some (.obj _) => true
     | _ => false)
  | _ => false

def charEntriesH (i : Nat) : List Char → List (String × HVal)
  | [] => []
  | c :: rest => (toString i, HVal.str (String.mk [c])) :: charEntriesH (i + 1) rest

def arrEntriesH (i : Nat) : List HVal → List (String × HVal)
  | [] => []
  | v :: rest => (toString i, v) :: arrEntriesH (i + 1) rest

/-- `Object.entries(v)` in the heap model. -/
def entriesOfH (st : HStore) : HVal → List (String × HVal)
  | .ref a =>
    (match st.get? a with
     | some (.obj fs) => fs
     | some (.arr es ps) => arrEntriesH 0 es ++ ps
     | none => [])
  | .str s => charEntriesH 0 s.toList
  | _ => []

/-- The shallow copy of line 112, as the contents of a fresh cell. -/
def copyCellOf (st : HStore) : HVal → HCell
  | .ref a =>
    (match st.get? a with
     | some (.arr es _) => .arr es []
     | some (.obj fs) => .obj fs
     | none => .obj [])
  | .str s => .obj (charEntriesH 0 s.toList)
  | _ => .obj []

/-- Read property `k` of the cell at address `a`. -/
def getPropH (st : HStore) (a : Nat) (k : String) : HVal :=
  match st.get? a with
  | some (.obj fs) => (alookup fs k).getD .undefined
  | some (.arr es ps) =>
    (match canonIdx k with
     | some i => (es.get? i).getD ((alookup ps k).getD .undefined)
     | none => (alookup ps k).getD .undefined)
  | none => .undefined

def setCell : HCell → String → HVal → HCell
  | .obj fs, k, w => .obj (aset fs k w)
  | .arr es ps, k, w =>
    (match canonIdx k with
     | some i =>
       if i < es.length then .arr (es.set i w) ps
       else .arr (es ++ List.replicate (i - es.length) HVal.undefined ++ [w]) ps
     | none => .arr es (aset ps k w))

/-- Write property `k` of the cell at address `a`. -/
def setPropH (st : HStore) (a : Nat) (k : String) (w : HVal) : HStore :=
  match st.get? a with
  | some c => st.set a (setCell c k w)
  | none => st

mutual
/-- Lines 110-121 with the store explicit: a falsy source returns the
target and leaves the store alone; otherwise the shallow copy of the
target is allocated as a fresh cell `a` and the entries of the source are
written over it.  Fuel 0 returns `undefined`; it is never reached when the
fuel exceeds the nesting depth of the source. -/
def deepMergeH : Nat → HStore → HVal → HVal → HStore × HVal
  | 0, st, _, _ => (st, .undefined)
  | fuel + 1, st, target, source =>
    if truthyH source then
      let a := st.length
      let st1 := st ++ [copyCellOf st target]
      let st2 := mergeEntriesH fuel (entriesOfH st source) a st1
      (st2, .ref a)
    else (st, target)
termination_by fuel _ _ _ => (fuel, 0)
decreasing_by
  simp_wf
  simp only [Prod.lex_def]
  omega

/-- The entries loop of lines 113-119, writing each entry onto the output
cell `a`; `output[key] || {}` allocates a fresh empty object when the
read is falsy. -/
def mergeEntriesH (fuel : Nat) : List (String × HVal) → Nat → HStore → HStore
  | [], _, st => st
  | (k, v) :: rest, a, st =>
    if isMergeObjH st v then
      let cur := getPropH st a k
      let alloc :=
        if truthyH cur then (st, cur)
        else (st ++ [HCell.obj []], HVal.ref st.length)
      let r := deepMergeH fuel alloc.1 alloc.2 v
      mergeEntriesH fuel rest a (setPropH r.1 a k r.2)
    else mergeEntriesH fuel rest a (setPropH st a k v)
termination_by es _ _ => (fuel, es.length + 1)
decreasing_by
  all_goals simp_wf
  all_goals simp only [Prod.lex_def, List.length_cons, true_and, and_true]
  all_goals omega
end

/-! ## Key paths into JSON trees -/

/-- Read one key of a parsed JSON tree (`none` when the key is absent or
the value is not indexable). -/
def getStep : JVal → String → Option JVal
  | .obj fs, k => alookup fs k
  | .arr es ps, k =>
    (match canonIdx k with
     | some i =>
       (match es.get? i with
        | some w => some w
        | none => alookup ps k)
     | none => alookup ps k)
  | _, _ => none

def lookupPath : List String → JVal → Option JVal
  | [], v => some v
  | k :: rest, v => (getStep v k) >>= lookupPath rest

/-- `Untouched p base frag`: the nonempty key path `p` into the
object-shaped base is not mentioned by the override fragment — walking
`p`, either the fragment has no entry at the current key, or both sides
hold non-array objects there and the rest of the path is untouched inside
them.  The fragment's keys at each traversed level are distinct, as in
any parsed JSON object. -/
def Untouched : List String → JVal → JVal → Prop
  | [], _, _ => False
  | k :: rest, base, frag =>
    ∃ bfs ffs, base = JVal.obj bfs ∧ frag = JVal.obj ffs ∧
      (ffs.map Prod.fst).Nodup ∧
      (alookup ffs k = none ∨
       ∃ vfs bvfs, alookup ffs k = some (JVal.obj vfs) ∧
         alookup bfs k = some (JVal.obj bvfs) ∧
         Untouched rest (JVal.obj bvfs) (JVal.obj vfs))

/-! ## The built day record as a JSON tree

`main` (lines 274-284) feeds the value built by `buildDay` to
`applyOverrides`; this encodes the built record in the generic value
type.  An absent clothing code is the `undefined` property the record
holds in memory. -/

def optStrJ : Option String → JVal
  | some s => .str s
  | none => .undefined

def packItemJ (p : PackItem) : JVal :=
  .obj [("code", .str p.code), ("label", .str p.label)]

def clubViewJ (c : ClubView) : JVal :=
  .obj [("time", .str c.time), ("name", .str c.name),
        ("short_name", .str c.short_name)]

def slotDisplayJ (s : SlotDisplay) : JVal :=
  .obj [("start", .str s.start), ("end", .str s.«end»), ("name", .str s.name)]

def childViewJ (v : ChildView) : JVal :=
  .obj [("clothing", .obj [("code", optStrJ v.clothing.code),
                           ("label", .str v.clothing.label)]),
        ("pack", .arr (v.pack.map packItemJ) []),
        ("dropoff", .str v.dropoff),
        ("pickup", .str v.pickup),
        ("clubs", .arr (v.clubs.map clubViewJ) []),
        ("pack_display", .str v.pack_display),
        ("pack_line", .str v.pack_line),
        ("pack_items", .arr (v.pack_items.map JVal.str) []),
        ("pack_item1", .str v.pack_item1),
        ("pack_item2", .str v.pack_item2),
        ("pack_item3", .str v.pack_item3),
        ("clubs_display", .arr (v.clubs_display.map slotDisplayJ) []),
        ("drop_display", .str v.drop_display),
        ("pick_display", .str v.pick_display)]

def dayRecordToJVal (r : DayRecord) : JVal :=
  .obj [("day", .str r.day),
        ("date", .str r.date),
        ("date_number", .str r.date_number),
        ("date_suffix", .str r.date_suffix),
        ("date_month", .str r.date_month),
        ("children", .obj (r.children.map (fun p => (p.1, childViewJ p.2))))]

/-- What one entry of the loop of lines 113-119 stores at its key: a
non-array object recurses into the (truthy) base value or a fresh empty
object; an array or scalar value is stored as is. -/
def entryResult (base : JVal) (k : String) (v : JVal) : JVal :=
  match v with
  | .obj vfs => deepMerge (jsOrEmptyV (jsGetKey base k)) (.obj vfs)
  | _ => v

/-! ## Concrete documents used in the evaluations below -/

/-- Monday rules: a clothing code for C1; no pack, drop-off or pick-up
rules. -/
def cDayConfig : DayConfig :=
  { days := some [("Monday",
      { clothing := some [("C1", "uniform")], pack := none,
        dropoff := none, pickup := none })],
    meta := none }

/-- A single Monday club for C1, 15:30-16:30. -/
def cClubSchedule : ClubSchedule :=
  { clubs := some [("Monday",
      [{ time := "15:30-16:30", club := "Creative Art Club",
         participants := some ["C1"] }])] }

/-- The pack schedule holds C1's Monday pack-code array by reference
(store address 0). -/
def cPackSchedule : PackSchedule :=
  { pack := some [("Monday", [("C1", 0)])] }

/-- The array store: one shared array, initially without codes. -/
def cStore : PackStore := [[]]

/-- The counterexample base for claim C3: the base value at `"k"` is an
array. -/
def cArrBase : JVal := .obj [("k", .arr [.num 1, .num 2] [])]

/-- The counterexample fragment for claim C3: the fragment value at `"k"`
is a non-array object keyed by an index. -/
def cIdxFrag : JVal := .obj [("k", .obj [("0", .num 9)])]

/-- A base record shaped like the override example of the specification. -/
def cOvrBase : JVal :=
  .obj [("children", .obj
    [("C1", .obj [("pickup", .str "15:45"),
                  ("clothing", .obj [("code", .str "uniform")])]),
     ("C2", .obj [("pickup", .str "16:00"),
                  ("dropoff", .str "08:15")])])]

/-- An override fragment setting only `children.C1.pickup`. -/
def cOvrFrag : JVal :=
  .obj [("children", .obj [("C1", .obj [("pickup", .str "17:30")])])]

/-- A two-cell heap: a base object and a fragment object. -/
def cHStore : HStore :=
  [HCell.obj [("pickup", HVal.str "15:45")],
   HCell.obj [("pickup", HVal.str "17:30")]]

/-! ## Claim C6 -/

/-- **C6.** For every date `d`, `startOfWeekMonday d` is a Monday with the
time of day zeroed, `d` lies in `[monday, monday + 6]`, and the result is
obtained by walking back 6 days from a Sunday and `weekday - 1` days
otherwise (Sunday = 0 convention). -/
theorem startOfWeekMonday_correct (d : JDate) :
    getDay (startOfWeekMonday d) = 1 ∧
    (startOfWeekMonday d).ms = 0 ∧
    (startOfWeekMonday d).days ≤ d.days ∧
    d.days ≤ (startOfWeekMonday d).days + 6 ∧
    (startOfWeekMonday d).days =
      d.days - (if getDay d = 0 then 6 else (getDay d : Int) - 1) := by
  have he0 : 0 ≤ (d.days + 4) % 7 := Int.emod_nonneg _ (by norm_num)
  have hcast : (((d.days + 4) % 7).toNat : Int) = (d.days + 4) % 7 :=
    Int.toNat_of_nonneg he0
  dsimp only [startOfWeekMonday, getDay]
  by_cases h : ((d.days + 4) % 7).toNat = 0
  · rw [if_pos h, if_pos h]
    omega
  · rw [if_neg h, if_neg h, hcast]
    omega

/-! ## Claim C1 -/

/-- **C1** (failing input): on a Monday with a 15:30-16:30 club for C1 and
no prior pack codes, the snack inference fires — `"snack"` is pushed onto
the shared codes array (the store afterwards holds `["snack"]`) and the
afternoon display slot shows the 15:30 start — yet the `pack` field of
C1's built ChildView is empty: line 145 derives `pack` from the codes
array before line 207 pushes onto it, so the claimed consequent (the pack
list includes a snack entry) fails. -/
theorem snack_pack_omission_at_failing_input :
    (buildDay "Monday" "2024-07-22" cDayConfig cClubSchedule cPackSchedule cStore).2
      = [["snack"]] ∧
    ((buildDay "Monday" "2024-07-22" cDayConfig cClubSchedule cPackSchedule
        cStore).1.children.map (fun p => (p.1, p.2.pack)))
      = [("C1", []), ("C2", [])] ∧
    ((buildDay "Monday" "2024-07-22" cDayConfig cClubSchedule cPackSchedule
        cStore).1.children.map
        (fun p => (p.1, p.2.clubs_display.map SlotDisplay.start)))
      = [("C1", ["08:15", "-", "15:30", "-"]), ("C2", ["08:15", "-", "16:00", "-"])] := by
  decide

/-! ## Claim C10 -/

/-- **C10.** `buildDay` is not free of side effects on its inputs: with
C1's pack-code array held by reference in the pack schedule, the first
call pushes `"snack"` onto the shared array, and a second call over the
same documents observes the mutated array and produces a different
ChildView for C1 — its `pack` now holds the snack entry the first call's
view lacked. -/
theorem buildDay_mutates_shared_pack_codes :
    ((buildDay "Monday" "2024-07-22" cDayConfig cClubSchedule cPackSchedule
        cStore).2 = [["snack"]]) ∧
    (((buildDay "Monday" "2024-07-22" cDayConfig cClubSchedule cPackSchedule
        cStore).1.children.map (fun p => (p.1, p.2.pack)))
      = [("C1", []), ("C2", [])]) ∧
    (((buildDay "Monday" "2024-07-22" cDayConfig cClubSchedule cPackSchedule
        (buildDay "Monday" "2024-07-22" cDayConfig cClubSchedule cPackSchedule
          cStore).2).1.children.map (fun p => (p.1, p.2.pack)))
      = [("C1", [⟨"snack", "Snack"⟩]), ("C2", [])]) ∧
    (buildDay "Monday" "2024-07-22" cDayConfig cClubSchedule cPackSchedule
        cStore).1.children ≠
      (buildDay "Monday" "2024-07-22" cDayConfig cClubSchedule cPackSchedule
        (buildDay "Monday" "2024-07-22" cDayConfig cClubSchedule cPackSchedule
          cStore).2).1.children := by
  decide

/-! ## Slot-filling lemmas -/

theorem fillStep_length (slots : List (Option SlotDisplay)) (c : ClubView) :
    (fillStep slots c).length = slots.length := by
  unfold fillStep
  cases h : slots.get? (slotIndexOf c) with
  | none => rfl
  | some o => cases o <;> simp

theorem fillFold_length (clubs : List ClubView) (acc : List (Option SlotDisplay)) :
    (clubs.foldl fillStep acc).length = acc.length := by
  induction clubs generalizing acc with
  | nil => rfl
  | cons c rest ih => rw [List.foldl_cons, ih, fillStep_length]

theorem fillSlots_length (clubs : List ClubView) : (fillSlots clubs).length = 4 := by
  unfold fillSlots
  rw [fillFold_length]
  rfl

/-- First-seen-wins contents of the fold of lines 186-193: slot `i` of the
result holds what the accumulator already held, or else the first club of
the list whose start time buckets to `i`. -/
theorem fillFold_get (clubs : List ClubView) (acc : List (Option SlotDisplay))
    (i : Nat) (o : Option SlotDisplay) (ho : acc.get? i = some o) :
    (clubs.foldl fillStep acc).get? i =
      some (o.orElse fun _ =>
        (clubs.find? (fun c => slotIndexOf c = i)).map mkSlotEntry) := by
  induction clubs generalizing acc o with
  | nil => cases o <;> simpa [List.find?, Option.orElse] using ho
  | cons c rest ih =>
    rw [List.foldl_cons]
    by_cases hslot : slotIndexOf c = i
    · cases o with
      | some e =>
        have hstep : fillStep acc c = acc := by
          unfold fillStep
          rw [hslot, ho]
        rw [hstep]
        exact ih acc (some e) ho
      | none =>
        have hstep : fillStep acc c = acc.set i (some (mkSlotEntry c)) := by
          unfold fillStep
          rw [hslot, ho]
        have hlt : i < acc.length := by
          by_contra hge
          rw [List.get?_eq_none.2 (Nat.le_of_not_lt hge)] at ho
          cases ho
        have hset : (acc.set i (some (mkSlotEntry c))).get? i
            = some (some (mkSlotEntry c)) := by
          rw [List.get?_set_eq_of_lt _ hlt]
        rw [hstep, ih _ _ hset]
        have hfind : (c :: rest).find? (fun c => slotIndexOf c = i) = some c := by
          rw [List.find?_cons_of_pos]
          simp [hslot]
        rw [hfind]
        simp [Option.orElse]
    · have hpres : (fillStep acc c).get? i = some o := by
        unfold fillStep
        cases hg : acc.get? (slotIndexOf c) with
        | none => exact ho
        | some o2 =>
          cases o2 with
          | none => rw [List.get?_set_ne _ _ hslot]; exact ho
          | some e => exact ho
      rw [ih _ _ hpres]
      have hfind : (c :: rest).find? (fun c => slotIndexOf c = i)
          = rest.find? (fun c => slotIndexOf c = i) := by
        rw [List.find?_cons_of_neg]
        simp [hslot]
      rw [hfind]

/-- Slot `i` of `fillSlots` is the first club bucketing to `i`. -/
theorem fillSlots_get (clubs : List ClubView) (i : Nat) (hi : i < 4) :
    (fillSlots clubs).get? i =
      some ((clubs.find? (fun c => slotIndexOf c = i)).map mkSlotEntry) := by
  unfold fillSlots
  have hinit : ([none, none, none, none] :
      List (Option SlotDisplay)).get? i = some none := by
    interval_cases i <;> rfl
  rw [fillFold_get clubs _ i none hinit]
  rfl

/-- A slot no club of the child buckets to is rendered as the placeholder
triple, before the anchor substitution of lines 197-199. -/
theorem unclaimed_slot_placeholder (clubs : List ClubView) (i : Nat) (hi : i < 4)
    (h : ∀ c ∈ clubs, slotIndexOf c ≠ i) :
    ((fillSlots clubs).map (fun s => s.getD placeholderSlot)).get? i
      = some placeholderSlot := by
  have hfind : clubs.find? (fun c => slotIndexOf c = i) = none := by
    rw [List.find?_eq_none]
    intro c hc
    simp [h c hc]
  rw [List.get?_map, fillSlots_get clubs i hi, hfind]
  rfl

theorem clubsDisplayOf_length (clubs : List ClubView) (dropoff pickup : String) :
    (clubsDisplayOf clubs dropoff pickup).length = 4 := by
  unfold clubsDisplayOf
  simp [fillSlots_length]

/-- Shape facts of the per-child view: its four-slot display is derived
from its own clubs list and anchors, and the clubs are the child's clubs
of the day. -/
theorem mkChildView_display (kidName : String) (eff : DayRules)
    (clubsToday : List ClubEntry) (clothingLabels : List (String × String))
    (packByDay : List (String × Nat)) (packLabels : List (String × String))
    (store : PackStore) :
    let v := (mkChildView kidName eff clubsToday clothingLabels packByDay
        packLabels store).1
    v.clubs_display.length = 4 ∧
    v.clubs = clubsForChild clubsToday kidName ∧
    v.clubs_display = clubsDisplayOf v.clubs v.dropoff v.pickup := by
  refine ⟨?_, rfl, rfl⟩
  exact clubsDisplayOf_length _ _ _

/-! ## Claim C2 -/

/-- **C2.** For every day built by `buildDay` — any weekday name, any
input documents — each participant's `clubs_display` has exactly 4
entries; it is the fixed-slot rendering of the child's own clubs with the
drop-off/pick-up anchors applied to slots 0 and 2 (morning, lunch,
afternoon, after-school order by slot index); and, before the anchor
substitution, every slot claimed by no club of the child is the
placeholder triple `{start:"-", end:"-", name:"-"}`. -/
theorem clubs_display_always_four (dayName iso : String) (cfg : DayConfig)
    (cs : ClubSchedule) (ps : PackSchedule) (store : PackStore)
    (p : String × ChildView)
    (hp : p ∈ (buildDay dayName iso cfg cs ps store).1.children) :
    p.2.clubs_display.length = 4 ∧
    p.2.clubs_display = clubsDisplayOf p.2.clubs p.2.dropoff p.2.pickup ∧
    (∀ i, i < 4 → (∀ c ∈ p.2.clubs, slotIndexOf c ≠ i) →
      ((fillSlots p.2.clubs).map (fun s => s.getD placeholderSlot)).get? i
        = some placeholderSlot) := by
  simp only [buildDay, kids, idToName, List.map, kidsLoop, List.mem_cons,
    List.not_mem_nil, or_false] at hp
  rcases hp with h | h <;> subst h <;>
    exact ⟨clubsDisplayOf_length _ _ _, rfl,
      fun i hi hcl => unclaimed_slot_placeholder _ i hi hcl⟩

/-- Witness for C2 at the concrete Monday documents. -/
theorem clubs_display_always_four_witness :
    (((buildDay "Monday" "2024-07-22" cDayConfig cClubSchedule cPackSchedule
        cStore).1.children.get ⟨0, by decide⟩) ∈
      (buildDay "Monday" "2024-07-22" cDayConfig cClubSchedule cPackSchedule
        cStore).1.children) ∧
    ((buildDay "Monday" "2024-07-22" cDayConfig cClubSchedule cPackSchedule
        cStore).1.children.get ⟨0, by decide⟩).2.clubs_display.length = 4 := by
  have hmem := List.get_mem
    (buildDay "Monday" "2024-07-22" cDayConfig cClubSchedule cPackSchedule
      cStore).1.children 0 (by decide)
  exact ⟨hmem,
    (clubs_display_always_four "Monday" "2024-07-22" cDayConfig cClubSchedule
      cPackSchedule cStore _ hmem).1⟩

/-! ## Claim C7 -/

/-- **C7.** Every club occurrence is bucketed into exactly one of the four
slots by its parsed start time: below 660 minutes (11:00) slot 0, below
840 (14:00) slot 1, below 1020 (17:00) slot 2, otherwise slot 3 — checked
at the clock boundaries 10:59/11:00, 13:59/14:00, 14:59, 16:59/17:00 —
and within a slot the earliest-processed entry wins: slot `i` of the
filled slots is the first club of the processing order that buckets to
`i`; a later club mapping to a filled slot is discarded. -/
theorem club_slot_bucketing :
    (∀ s mins, toSortNum s = some mins →
      slotForStart s =
        if mins < 660 then 0
        else if mins < 840 then 1
        else if mins < 1020 then 2
        else 3) ∧
    (slotForStart "10:59" = 0 ∧ slotForStart "11:00" = 1 ∧
     slotForStart "13:59" = 1 ∧ slotForStart "14:00" = 2 ∧
     slotForStart "14:59" = 2 ∧ slotForStart "16:59" = 2 ∧
     slotForStart "17:00" = 3) ∧
    (∀ s, slotForStart s < 4) ∧
    (∀ (clubs : List ClubView) (i : Nat), i < 4 →
      (fillSlots clubs).get? i =
        some ((clubs.find? (fun c => slotIndexOf c = i)).map mkSlotEntry)) := by
  refine ⟨?_, by decide, ?_, fun clubs i hi => fillSlots_get clubs i hi⟩
  · intro s mins h
    unfold slotForStart
    rw [h]
  · intro s
    unfold slotForStart
    cases toSortNum s with
    | none => simp
    | some mins =>
      dsimp only
      split
      · omega
      · split
        · omega
        · split <;> omega

/-- Witness for C7: a 15:30 start buckets to the afternoon slot, and with
two clubs bucketing there the first processed one occupies the slot. -/
theorem club_slot_bucketing_witness :
    toSortNum "15:30" = some 930 ∧
    slotForStart "15:30" = (if (930 : Int) < 660 then 0
      else if (930 : Int) < 840 then 1 else if (930 : Int) < 1020 then 2 else 3) ∧
    (2 : Nat) < 4 ∧
    (fillSlots [⟨"15:30-16:30", "Creative Art Club", "Art"⟩,
                ⟨"16:00-17:00", "Fencing", "Fencing"⟩]).get? 2 =
      some ((([⟨"15:30-16:30", "Creative Art Club", "Art"⟩,
               ⟨"16:00-17:00", "Fencing", "Fencing"⟩] :
          List ClubView).find? (fun c => slotIndexOf c = 2)).map mkSlotEntry) := by
  refine ⟨by decide, ?_, by decide, ?_⟩
  · exact club_slot_bucketing.1 "15:30" 930 (by decide)
  · exact club_slot_bucketing.2.2.2 _ 2 (by decide)

/-! ## Week-order lemmas -/

theorem aset_of_not_mem {α : Type} (l : List (String × α)) (k : String) (v : α)
    (h : k ∉ l.map Prod.fst) : aset l k v = l ++ [(k, v)] := by
  induction l with
  | nil => rfl
  | cons kv rest ih =>
    obtain ⟨k1, v1⟩ := kv
    simp only [List.map_cons, List.mem_cons, not_or] at h
    unfold aset
    rw [if_neg (fun he => h.1 he.symm), ih h.2]
    simp

theorem dayNames_inj : ∀ a, a < 7 → ∀ b, b < 7 → a ≠ b →
    dayNamesEn.getD a "" ≠ dayNamesEn.getD b "" := by decide

theorem getDay_lt7 (d : JDate) : getDay d < 7 := by
  unfold getDay
  omega

theorem weekdayName_ne_on_week (m : JDate) (i j : Nat) (hi : i < 7) (hj : j < 7)
    (hne : i ≠ j) : weekdayName (addDaysJ m i) ≠ weekdayName (addDaysJ m j) := by
  unfold weekdayName
  apply dayNames_inj _ (getDay_lt7 _) _ (getDay_lt7 _)
  unfold getDay addDaysJ
  simp only
  omega

/-- The keys accumulated by the loop of `buildWeek`: the names of the
offsets whose weekday has an entry in the recurring rules, in iteration
order, appended to the accumulator's keys. -/
theorem buildWeekLoop_keys (cfg : DayConfig) (cs : ClubSchedule)
    (ps : PackSchedule) (monday : JDate) :
    ∀ (offs : List Nat) (acc : List (String × DayRecord)) (st : PackStore),
    (∀ i ∈ offs, weekdayName (addDaysJ monday i) ∉ acc.map Prod.fst) →
    offs.Pairwise (fun i j =>
      weekdayName (addDaysJ monday i) ≠ weekdayName (addDaysJ monday j)) →
    (buildWeekLoop cfg cs ps monday offs acc st).1.map Prod.fst =
      acc.map Prod.fst ++
        ((offs.filter (fun i =>
            (dayRulesOf cfg (weekdayName (addDaysJ monday i))).isSome)).map
          (fun i => weekdayName (addDaysJ monday i))) := by
  intro offs
  induction offs with
  | nil =>
    intro acc st h1 h2
    simp [buildWeekLoop]
  | cons i rest ih =>
    intro acc st h1 h2
    rw [List.pairwise_cons] at h2
    have hfresh : weekdayName (addDaysJ monday i) ∉ acc.map Prod.fst :=
      h1 i (List.mem_cons_self _ _)
    cases hr : dayRulesOf cfg (weekdayName (addDaysJ monday i)) with
    | none =>
      unfold buildWeekLoop
      simp only [hr]
      rw [ih acc st (fun i' hi' => h1 i' (List.mem_cons_of_mem _ hi')) h2.2,
        List.filter_cons_of_neg (by simp [hr])]
    | some rules =>
      unfold buildWeekLoop
      simp only [hr]
      rw [aset_of_not_mem _ _ _ hfresh]
      rw [ih _ _ ?_ h2.2]
      · rw [List.filter_cons_of_pos (by simp [hr])]
        simp
      · intro i' hi'
        simp only [List.map_append, List.map_cons, List.map_nil, List.mem_append,
          List.mem_cons, List.not_mem_nil, or_false, not_or]
        exact ⟨h1 i' (List.mem_cons_of_mem _ hi'), (h2.1 i' hi').symm⟩

/-! ## Claim C8 -/

/-- **C8.** For every starting date and all input documents, `buildWeek`
iterates the seven calendar days from that date inclusive in
chronological order, and `week_order` lists exactly the weekday names
that have an entry in the recurring weekday rules, in that chronological
order — a weekday absent from the rules is skipped even when the club or
pack schedule has data for it (neither is consulted by the filter). -/
theorem buildWeek_week_order (monday : JDate) (cfg : DayConfig)
    (cs : ClubSchedule) (ps : PackSchedule) (store : PackStore) :
    (buildWeek monday cfg cs ps store).1.week_order =
      (((List.range 7).filter (fun i =>
          (dayRulesOf cfg (weekdayName (addDaysJ monday i))).isSome)).map
        (fun i => weekdayName (addDaysJ monday i))) ∧
    (buildWeek monday cfg cs ps store).1.week_order =
      ((buildWeek monday cfg cs ps store).1.week).map Prod.fst := by
  refine ⟨?_, rfl⟩
  unfold buildWeek
  dsimp only
  rw [buildWeekLoop_keys cfg cs ps monday (List.range 7) [] store (by simp) ?_]
  · simp
  · rw [List.pairwise_iff_getElem]
    intro a b ha hb hab
    simp only [List.getElem_range]
    have ha7 : a < 7 := by simpa using ha
    have hb7 : b < 7 := by simpa using hb
    exact weekdayName_ne_on_week monday a b ha7 hb7 (Nat.ne_of_lt hab)

/-! ## Lemmas for the missing-weekday fallback -/

theorem pack_codes_map (labels : List (String × String)) (codes : List String) :
    (codes.map (packItemOf labels)).map PackItem.code = codes := by
  induction codes with
  | nil => rfl
  | cons c rest ih => simp only [List.map_cons, ih, packItemOf]

theorem alookup_mem_values {α : Type} (l : List (String × α)) (k : String) (v : α)
    (h : alookup l k = some v) : v ∈ l.map Prod.snd := by
  induction l with
  | nil => cases h
  | cons kv rest ih =>
    obtain ⟨k1, v1⟩ := kv
    unfold alookup at h
    by_cases e : k1 = k
    · rw [if_pos e] at h
      cases h
      simp
    · rw [if_neg e] at h
      simp [ih h]

/-- With pairwise-distinct values (as for the distinct arrays of a parsed
document), lookups at two different keys yield different values. -/
theorem alookup_ne_of_nodup {α : Type} (l : List (String × α)) (k1 k2 : String)
    (v1 v2 : α) (hk : k1 ≠ k2) (h1 : alookup l k1 = some v1)
    (h2 : alookup l k2 = some v2) (hnd : (l.map Prod.snd).Nodup) : v1 ≠ v2 := by
  induction l with
  | nil => cases h1
  | cons kv rest ih =>
    obtain ⟨k, v⟩ := kv
    unfold alookup at h1 h2
    simp only [List.map_cons, List.nodup_cons] at hnd
    by_cases e1 : k = k1
    · rw [if_pos e1] at h1
      cases h1
      rw [if_neg (fun e2 => hk (e1.symm.trans e2))] at h2
      exact fun he => hnd.1 (he ▸ alookup_mem_values rest k2 v2 h2)
    · rw [if_neg e1] at h1
      by_cases e2 : k = k2
      · rw [if_pos e2] at h2
        cases h2
        exact fun he => hnd.1 (he ▸ alookup_mem_values rest k1 v1 h1)
      · rw [if_neg e2] at h2
        exact ih h1 h2 hnd.2

/-- The per-child step only ever writes to the child's own pack-code
array: reads at any other address are unchanged.  (Stated for a child
without recurring rules, as in the missing-weekday fallback.) -/
theorem mkChildView_store_get (kidName : String) (ct : List ClubEntry)
    (cl : List (String × String)) (pb : List (String × Nat))
    (labels : List (String × String)) (st : PackStore) (a : Nat)
    (ha : ∀ r, alookup pb kidName = some r → a ≠ r) :
    ((mkChildView kidName emptyDayRules ct cl pb labels st).2.1).get? a
      = st.get? a := by
  unfold mkChildView
  cases href : alookup pb kidName with
  | none =>
    simp only [href, emptyDayRules, Option.none_bind]
    split <;> rfl
  | some r =>
    have har : a ≠ r := ha r href
    simp only [href]
    split
    · exact List.get?_set_ne _ _ (fun he => har he.symm)
    · rfl

/-- The fields of the per-child view when the weekday has no recurring
rules: no clothing code, empty label, pack codes from the pack schedule
alone, default drop-off and pick-up, clubs from the club schedule. -/
theorem mkChildView_empty_rules (kidName : String) (ct : List ClubEntry)
    (cl : List (String × String)) (pb : List (String × Nat))
    (labels : List (String × String)) (st : PackStore) :
    ((mkChildView kidName emptyDayRules ct cl pb labels st).1.clothing.code
        = none) ∧
    ((mkChildView kidName emptyDayRules ct cl pb labels st).1.clothing.label
        = "") ∧
    ((mkChildView kidName emptyDayRules ct cl pb labels st).1.pack.map
        PackItem.code =
      (match alookup pb kidName with
       | some r => (st.get? r).getD []
       | none => [])) ∧
    ((mkChildView kidName emptyDayRules ct cl pb labels st).1.dropoff =
      (alookup defaultDropoff ((alookup nameToId kidName).getD "")).getD "") ∧
    ((mkChildView kidName emptyDayRules ct cl pb labels st).1.pickup =
      (alookup defaultPickup ((alookup nameToId kidName).getD "")).getD "") ∧
    ((mkChildView kidName emptyDayRules ct cl pb labels st).1.clubs =
      clubsForChild ct kidName) := by
  refine ⟨rfl, rfl, ?_, rfl, rfl, rfl⟩
  unfold mkChildView
  cases href : alookup pb kidName with
  | none => simp [href, emptyDayRules, Function.comp, packItemOf]
  | some r =>
    simp only [href]
    exact pack_codes_map labels _

/-! ## Claim C9 -/

/-- **C9.** `buildDay`, invoked with a weekday name that has no entry in
the recurring rules document, never fails (the embedding is total) and
deterministically returns a full synthetic day record: one ChildView per
known participant (ids C1 and C2), each with no clothing code and an
empty clothing label, pack codes resolved from the pack schedule alone
(else empty), drop-off and pick-up taken from the built-in
per-participant defaults, and clubs still collected from the club
schedule for that weekday.  The hypothesis on the pack schedule says its
per-child arrays are pairwise-distinct references, as in any store built
from a parsed document. -/
theorem buildDay_unknown_weekday (dayName iso : String) (cfg : DayConfig)
    (cs : ClubSchedule) (ps : PackSchedule) (store : PackStore)
    (hday : dayRulesOf cfg dayName = none)
    (hdist : ((packByDayOf ps dayName).map Prod.snd).Nodup) :
    ((buildDay dayName iso cfg cs ps store).1.children.map Prod.fst
        = ["C1", "C2"]) ∧
    ∀ p ∈ (buildDay dayName iso cfg cs ps store).1.children,
      p.2.clothing.code = none ∧
      p.2.clothing.label = "" ∧
      (p.2.pack.map PackItem.code =
        (match alookup (packByDayOf ps dayName) p.1 with
         | some r => (store.get? r).getD []
         | none => [])) ∧
      p.2.dropoff = (alookup defaultDropoff p.1).getD "" ∧
      p.2.pickup = (alookup defaultPickup p.1).getD "" ∧
      p.2.clubs = clubsForChild (clubsTodayOf cs dayName) p.1 := by
  constructor
  · rfl
  · intro p hp
    have hch : (buildDay dayName iso cfg cs ps store).1.children
        = [((alookup nameToId "C1").getD "",
            (mkChildView "C1" ((dayRulesOf cfg dayName).getD emptyDayRules)
              (clubsTodayOf cs dayName)
              (spreadPairs defaultClothingLabels
                ((cfg.meta >>= fun m => m.clothing_labels).getD []))
              (packByDayOf ps dayName)
              (spreadPairs defaultPackLabels
                ((cfg.meta >>= fun m => m.pack_labels).getD []))
              store).1),
           ((alookup nameToId "C2").getD "",
            (mkChildView "C2" ((dayRulesOf cfg dayName).getD emptyDayRules)
              (clubsTodayOf cs dayName)
              (spreadPairs defaultClothingLabels
                ((cfg.meta >>= fun m => m.clothing_labels).getD []))
              (packByDayOf ps dayName)
              ((mkChildView "C1" ((dayRulesOf cfg dayName).getD emptyDayRules)
                (clubsTodayOf cs dayName)
                (spreadPairs defaultClothingLabels
                  ((cfg.meta >>= fun m => m.clothing_labels).getD []))
                (packByDayOf ps dayName)
                (spreadPairs defaultPackLabels
                  ((cfg.meta >>= fun m => m.pack_labels).getD []))
                store).2.2)
              ((mkChildView "C1" ((dayRulesOf cfg dayName).getD emptyDayRules)
                (clubsTodayOf cs dayName)
                (spreadPairs defaultClothingLabels
                  ((cfg.meta >>= fun m => m.clothing_labels).getD []))
                (packByDayOf ps dayName)
                (spreadPairs defaultPackLabels
                  ((cfg.meta >>= fun m => m.pack_labels).getD []))
                store).2.1)).1)] := rfl
    rw [hch] at hp
    simp only [hday, Option.getD_none] at hp
    simp only [List.mem_cons, List.not_mem_nil, or_false] at hp
    rcases hp with h | h
    · subst h
      obtain ⟨h1, h2, h3, h4, h5, h6⟩ := mkChildView_empty_rules "C1"
        (clubsTodayOf cs dayName)
        (spreadPairs defaultClothingLabels
          ((cfg.meta >>= fun m => m.clothing_labels).getD []))
        (packByDayOf ps dayName)
        (spreadPairs defaultPackLabels
          ((cfg.meta >>= fun m => m.pack_labels).getD []))
        store
      exact ⟨h1, h2, h3, h4, h5, h6⟩
    · subst h
      obtain ⟨h1, h2, h3, h4, h5, h6⟩ := mkChildView_empty_rules "C2"
        (clubsTodayOf cs dayName)
        (spreadPairs defaultClothingLabels
          ((cfg.meta >>= fun m => m.clothing_labels).getD []))
        (packByDayOf ps dayName)
        ((mkChildView "C1" emptyDayRules (clubsTodayOf cs dayName)
          (spreadPairs defaultClothingLabels
            ((cfg.meta >>= fun m => m.clothing_labels).getD []))
          (packByDayOf ps dayName)
          (spreadPairs defaultPackLabels
            ((cfg.meta >>= fun m => m.pack_labels).getD []))
          store).2.2)
        ((mkChildView "C1" emptyDayRules (clubsTodayOf cs dayName)
          (spreadPairs defaultClothingLabels
            ((cfg.meta >>= fun m => m.clothing_labels).getD []))
          (packByDayOf ps dayName)
          (spreadPairs defaultPackLabels
            ((cfg.meta >>= fun m => m.pack_labels).getD []))
          store).2.1)
      refine ⟨h1, h2, ?_, h4, h5, h6⟩
      show _ = (match alookup (packByDayOf ps dayName) "C2" with
        | some r => (store.get? r).getD []
        | none => ([] : List String))
      rw [h3]
      cases href2 : alookup (packByDayOf ps dayName) "C2" with
      | none => rfl
      | some r =>
        dsimp only
        rw [mkChildView_store_get "C1" _ _ _ _ store r ?_]
        intro r1 hr1
        exact alookup_ne_of_nodup (packByDayOf ps dayName) "C2" "C1" r r1
          (by decide) href2 hr1 hdist

/-- Witness for C9: building a Saturday, absent from the recurring rules,
still yields both children. -/
theorem buildDay_unknown_weekday_witness :
    dayRulesOf cDayConfig "Saturday" = none ∧
    ((packByDayOf cPackSchedule "Saturday").map Prod.snd).Nodup ∧
    ((buildDay "Saturday" "2024-07-27" cDayConfig cClubSchedule cPackSchedule
        cStore).1.children.map Prod.fst = ["C1", "C2"]) :=
  ⟨by decide, by decide,
    (buildDay_unknown_weekday "Saturday" "2024-07-27" cDayConfig cClubSchedule
      cPackSchedule cStore (by decide) (by decide)).1⟩

/-! ## `deepMerge` unfolding and association lemmas -/

theorem deepMerge_falsy (t s : JVal) (h : truthy s = false) : deepMerge t s = t := by
  rw [deepMerge]
  simp [h]

theorem deepMerge_truthy (t s : JVal) (h : truthy s = true) :
    deepMerge t s = mergeEntries (entriesOf s) (copyOf t) := by
  rw [deepMerge]
  simp [h]

theorem mergeEntries_nil (out : JVal) : mergeEntries [] out = out := by
  rw [mergeEntries]

theorem mergeEntries_cons_obj (k : String) (vfs rest : List (String × JVal))
    (out : JVal) :
    mergeEntries ((k, JVal.obj vfs) :: rest) out =
      mergeEntries rest
        (setKeyJ out k (deepMerge (jsOrEmptyV (jsGetKey out k)) (JVal.obj vfs))) := by
  rw [mergeEntries]

theorem mergeEntries_cons_nonobj (k : String) (v : JVal)
    (rest : List (String × JVal)) (out : JVal) (h : ∀ vfs, v ≠ JVal.obj vfs) :
    mergeEntries ((k, v) :: rest) out = mergeEntries rest (setKeyJ out k v) := by
  cases v <;>
    first
      | exact absurd rfl (h _)
      | (rw [mergeEntries]; exact fun _ hfs => by cases hfs)

/-- One entry of the loop rewrites the output at its key with
`entryResult`, whatever the shape of the value. -/
theorem mergeEntries_cons (k : String) (v : JVal) (rest : List (String × JVal))
    (out : JVal) :
    mergeEntries ((k, v) :: rest) out =
      mergeEntries rest (setKeyJ out k (entryResult out k v)) := by
  cases v with
  | obj vfs => rw [mergeEntries_cons_obj]; rfl
  | undefined => rw [mergeEntries_cons_nonobj _ _ _ _ (fun _ h => by cases h)]; rfl
  | null => rw [mergeEntries_cons_nonobj _ _ _ _ (fun _ h => by cases h)]; rfl
  | bool b => rw [mergeEntries_cons_nonobj _ _ _ _ (fun _ h => by cases h)]; rfl
  | num n => rw [mergeEntries_cons_nonobj _ _ _ _ (fun _ h => by cases h)]; rfl
  | str s => rw [mergeEntries_cons_nonobj _ _ _ _ (fun _ h => by cases h)]; rfl
  | arr es ps => rw [mergeEntries_cons_nonobj _ _ _ _ (fun _ h => by cases h)]; rfl

theorem alookup_aset {α : Type} (l : List (String × α)) (k : String) (v : α) :
    alookup (aset l k v) k = some v := by
  induction l with
  | nil => simp [aset, alookup]
  | cons kv rest ih =>
    obtain ⟨k1, v1⟩ := kv
    unfold aset
    by_cases e : k1 = k
    · rw [if_pos e]
      simp [alookup]
    · rw [if_neg e]
      unfold alookup
      rw [if_neg e]
      exact ih

theorem alookup_aset_ne {α : Type} (l : List (String × α)) (k1 k : String) (v : α)
    (h : k1 ≠ k) : alookup (aset l k1 v) k = alookup l k := by
  induction l with
  | nil => simp [aset, alookup, if_neg h]
  | cons kv rest ih =>
    obtain ⟨k2, v2⟩ := kv
    unfold aset
    by_cases e : k2 = k1
    · rw [if_pos e]
      unfold alookup
      rw [if_neg h, if_neg (e ▸ h)]
    · rw [if_neg e]
      unfold alookup
      by_cases e2 : k2 = k
      · rw [if_pos e2, if_pos e2]
      · rw [if_neg e2, if_neg e2]
        exact ih

theorem alookup_none_not_mem {α : Type} (l : List (String × α)) (k : String)
    (h : alookup l k = none) : k ∉ l.map Prod.fst := by
  induction l with
  | nil => simp
  | cons kv rest ih =>
    obtain ⟨k1, v1⟩ := kv
    unfold alookup at h
    by_cases e : k1 = k
    · rw [if_pos e] at h
      cases h
    · rw [if_neg e] at h
      simp only [List.map_cons, List.mem_cons, not_or]
      exact ⟨fun he => e he.symm, ih h⟩

theorem alookup_mem {α : Type} (l : List (String × α)) (k : String) (v : α)
    (h : alookup l k = some v) : (k, v) ∈ l := by
  induction l with
  | nil => cases h
  | cons kv rest ih =>
    obtain ⟨k1, v1⟩ := kv
    unfold alookup at h
    by_cases e : k1 = k
    · rw [if_pos e] at h
      cases h
      simp [e]
    · rw [if_neg e] at h
      exact List.mem_cons_of_mem _ (ih h)

theorem setKeyJ_obj (fs : List (String × JVal)) (k : String) (w : JVal) :
    setKeyJ (JVal.obj fs) k w = JVal.obj (aset fs k w) := rfl

/-! ## Entry semantics of the merge loop -/

/-- A key outside the entry list is left untouched by the loop. -/
theorem mergeEntries_getStep_not_mem (es : List (String × JVal))
    (fs : List (String × JVal)) (k : String) (h : k ∉ es.map Prod.fst) :
    getStep (mergeEntries es (JVal.obj fs)) k = getStep (JVal.obj fs) k := by
  induction es generalizing fs with
  | nil => rw [mergeEntries_nil]
  | cons kv rest ih =>
    obtain ⟨k1, v⟩ := kv
    simp only [List.map_cons, List.mem_cons, not_or] at h
    rw [mergeEntries_cons]
    show getStep (mergeEntries rest (JVal.obj (aset fs k1 _))) k = _
    rw [ih _ h.2]
    show alookup (aset fs k1 _) k = alookup fs k
    exact alookup_aset_ne _ _ _ _ (fun he => h.1 he.symm)

theorem entryResult_congr (b1 b2 : JVal) (k : String) (v : JVal)
    (h : jsGetKey b1 k = jsGetKey b2 k) : entryResult b1 k v = entryResult b2 k v := by
  cases v <;> simp [entryResult, h]

/-- With distinct keys, the loop stores `entryResult` at each entry's
key — the recursion of line 115 for a non-array object value, the plain
replacement of line 117 otherwise. -/
theorem mergeEntries_getStep_mem (es : List (String × JVal))
    (fs : List (String × JVal)) (k : String) (v : JVal)
    (hnd : (es.map Prod.fst).Nodup) (hmem : (k, v) ∈ es) :
    getStep (mergeEntries es (JVal.obj fs)) k =
      some (entryResult (JVal.obj fs) k v) := by
  induction es generalizing fs with
  | nil => cases hmem
  | cons kv rest ih =>
    obtain ⟨k1, v1⟩ := kv
    simp only [List.map_cons, List.nodup_cons] at hnd
    rw [mergeEntries_cons]
    rcases List.mem_cons.1 hmem with hhead | htail
    · cases hhead
      have hnot : k ∉ rest.map Prod.fst := hnd.1
      rw [setKeyJ_obj, mergeEntries_getStep_not_mem _ _ _ hnot]
      show alookup (aset fs k (entryResult (JVal.obj fs) k v)) k = _
      rw [alookup_aset]
    · have hk1 : k1 ≠ k := by
        intro he
        exact hnd.1 (he ▸ (List.mem_map.2 ⟨(k, v), htail, rfl⟩))
      rw [setKeyJ_obj, ih _ hnd.2 htail]
      have hget : jsGetKey (JVal.obj (aset fs k1 (entryResult (JVal.obj fs) k1 v1))) k
          = jsGetKey (JVal.obj fs) k := by
        show (alookup (aset fs k1 _) k).getD JVal.undefined = (alookup fs k).getD JVal.undefined
        rw [alookup_aset_ne _ _ _ _ hk1]
      rw [entryResult_congr _ _ _ _ hget]

theorem lookupPath_cons (k : String) (rest : List String) (v : JVal) :
    lookupPath (k :: rest) v = (getStep v k).bind (lookupPath rest) := rfl

/-! ## Claim C3 -/

/-- **C3** (counterexample): with the base value at `"k"` an array and the
fragment value there a non-array object keyed by the index `"0"`,
`deepMerge` recurses into the base array and updates it element-wise: the
result at `"k"` is the array `[9, 2]`, not the fragment value
`{"0": 9}` — so the fragment value does not replace a non-object base
value outright, and the recursion is not restricted to the case where
both values are non-array objects. -/
theorem deepMerge_replace_counterexample :
    deepMerge cArrBase cIdxFrag
      = JVal.obj [("k", JVal.arr [JVal.num 9, JVal.num 2] [])] ∧
    getStep (deepMerge cArrBase cIdxFrag) "k"
      = some (JVal.arr [JVal.num 9, JVal.num 2] []) ∧
    JVal.arr [JVal.num 9, JVal.num 2] [] ≠ JVal.obj [("0", JVal.num 9)] := by
  have h : deepMerge cArrBase cIdxFrag
      = JVal.obj [("k", JVal.arr [JVal.num 9, JVal.num 2] [])] := by
    simp [cArrBase, cIdxFrag, deepMerge, mergeEntries, truthy, entriesOf,
      copyOf, setKeyJ, jsGetKey, jsOrEmptyV, alookup, aset, canonIdx,
      parseDigits]
  refine ⟨h, ?_, fun he => JVal.noConfusion he⟩
  rw [h]
  rfl

/-- **C3** (amended): `deepMerge` recurses exactly when the fragment's
value at a key is a non-array object, regardless of the base value — the
recursion target is the base's value at that key when truthy, else a
fresh empty object; when the fragment value is an array or a scalar it
replaces the base value outright (an override list fully replaces a base
list).  Only when both values are non-array objects does this coincide
with the claim's recursion; a non-array-object fragment value over an
array base merges into the array instead of replacing it. -/
theorem deepMerge_entry_rule :
    (∀ (bfs ffs : List (String × JVal)) (k : String) (v : JVal),
      (ffs.map Prod.fst).Nodup → (k, v) ∈ ffs →
      getStep (deepMerge (JVal.obj bfs) (JVal.obj ffs)) k
        = some (entryResult (JVal.obj bfs) k v)) ∧
    (∀ base k es ps, entryResult base k (JVal.arr es ps) = JVal.arr es ps) ∧
    (∀ base k (n : Int), entryResult base k (JVal.num n) = JVal.num n) ∧
    (∀ base k s, entryResult base k (JVal.str s) = JVal.str s) ∧
    (∀ base k (b : Bool), entryResult base k (JVal.bool b) = JVal.bool b) ∧
    (∀ base k vfs, entryResult base k (JVal.obj vfs)
      = deepMerge (jsOrEmptyV (jsGetKey base k)) (JVal.obj vfs)) := by
  refine ⟨?_, fun _ _ _ _ => rfl, fun _ _ _ => rfl, fun _ _ _ => rfl,
    fun _ _ _ => rfl, fun _ _ _ => rfl⟩
  intro bfs ffs k v hnd hmem
  rw [deepMerge_truthy (JVal.obj bfs) (JVal.obj ffs) rfl]
  exact mergeEntries_getStep_mem ffs bfs k v hnd hmem

/-- Witness for the amended C3 at the counterexample documents. -/
theorem deepMerge_entry_rule_witness :
    (([("k", JVal.obj [("0", JVal.num 9)])].map Prod.fst).Nodup) ∧
    (("k", JVal.obj [("0", JVal.num 9)])
      ∈ [("k", JVal.obj [("0", JVal.num 9)])]) ∧
    getStep (deepMerge cArrBase cIdxFrag) "k"
      = some (entryResult cArrBase "k" (JVal.obj [("0", JVal.num 9)])) := by
  refine ⟨by decide, by simp, ?_⟩
  exact deepMerge_entry_rule.1 [("k", JVal.arr [JVal.num 1, JVal.num 2] [])]
    [("k", JVal.obj [("0", JVal.num 9)])] "k" (JVal.obj [("0", JVal.num 9)])
    (by decide) (by simp)

/-! ## Claim C5 -/

/-- **C5.** The override merge never drops base keys the fragment does not
mention: for every object-shaped base, fragment, and key path present in
the base but untouched by the fragment, the merged result still holds the
base's value at that path. -/
theorem deepMerge_preserves_untouched_paths (p : List String) (base frag : JVal)
    (h : Untouched p base frag) :
    lookupPath p (deepMerge base frag) = lookupPath p base := by
  induction p generalizing base frag with
  | nil => exact absurd h (by simp [Untouched])
  | cons k rest ih =>
    obtain ⟨bfs, ffs, hb, hf, hnd, hcase⟩ := h
    subst hb
    subst hf
    rw [deepMerge_truthy (JVal.obj bfs) (JVal.obj ffs) rfl]
    show lookupPath (k :: rest) (mergeEntries ffs (JVal.obj bfs))
      = lookupPath (k :: rest) (JVal.obj bfs)
    rcases hcase with hnone | ⟨vfs, bvfs, hfk, hbk, hun⟩
    · rw [lookupPath_cons, lookupPath_cons,
        mergeEntries_getStep_not_mem ffs bfs k (alookup_none_not_mem _ _ hnone)]
    · rw [lookupPath_cons, lookupPath_cons,
        mergeEntries_getStep_mem ffs bfs k _ hnd (alookup_mem _ _ _ hfk)]
      have hg : jsGetKey (JVal.obj bfs) k = JVal.obj bvfs := by
        show (alookup bfs k).getD JVal.undefined = _
        rw [hbk]
        rfl
      show (some (entryResult (JVal.obj bfs) k (JVal.obj vfs))).bind
          (lookupPath rest) = (alookup bfs k).bind (lookupPath rest)
      rw [hbk]
      show lookupPath rest
          (deepMerge (jsOrEmptyV (jsGetKey (JVal.obj bfs) k)) (JVal.obj vfs))
        = lookupPath rest (JVal.obj bvfs)
      rw [hg]
      show lookupPath rest (deepMerge (JVal.obj bvfs) (JVal.obj vfs))
        = lookupPath rest (JVal.obj bvfs)
      exact ih _ _ hun

/-- Witness for C5: overriding only `children.C1.pickup` leaves
`children.C2.pickup` at its base value. -/
theorem deepMerge_preserves_untouched_paths_witness :
    Untouched ["children", "C2", "pickup"] cOvrBase cOvrFrag ∧
    lookupPath ["children", "C2", "pickup"] (deepMerge cOvrBase cOvrFrag)
      = lookupPath ["children", "C2", "pickup"] cOvrBase ∧
    lookupPath ["children", "C2", "pickup"] cOvrBase
      = some (JVal.str "16:00") := by
  have hu : Untouched ["children", "C2", "pickup"] cOvrBase cOvrFrag := by
    refine ⟨_, _, rfl, rfl, by decide,
      Or.inr ⟨_, _, rfl, rfl, ?_⟩⟩
    exact ⟨_, _, rfl, rfl, by decide, Or.inl rfl⟩
  exact ⟨hu, deepMerge_preserves_untouched_paths _ _ _ hu, rfl⟩

/-! ## Store preservation of the heap merge -/

theorem setPropH_length (st : HStore) (a : Nat) (k : String) (w : HVal) :
    (setPropH st a k w).length = st.length := by
  unfold setPropH
  cases h : st.get? a
  · rfl
  · simp

theorem setPropH_get_ne (st : HStore) (a b : Nat) (k : String) (w : HVal)
    (h : b ≠ a) : (setPropH st a k w).get? b = st.get? b := by
  unfold setPropH
  cases hg : st.get? a
  · rfl
  · exact List.get?_set_ne _ _ (fun he => h he.symm)

/-- The merge loop writes only to the output cell `a0` and to cells it
(or its recursive merges) allocated: all addresses below `n ≤ a0`,
pre-existing in the store, are untouched, and the store only grows. -/
theorem mergeEntriesH_pres (fuel : Nat)
    (hP : ∀ st (t s : HVal), st.length ≤ ((deepMergeH fuel st t s).1).length ∧
      ∀ a, a < st.length → ((deepMergeH fuel st t s).1).get? a = st.get? a) :
    ∀ (es : List (String × HVal)) (a0 : Nat) (st : HStore) (n : Nat),
      n ≤ st.length → n ≤ a0 →
      st.length ≤ (mergeEntriesH fuel es a0 st).length ∧
      ∀ a, a < n → (mergeEntriesH fuel es a0 st).get? a = st.get? a := by
  intro es
  induction es with
  | nil =>
    intro a0 st n h1 h2
    rw [mergeEntriesH]
    exact ⟨le_refl _, fun a ha => rfl⟩
  | cons kv rest ih =>
    obtain ⟨k, v⟩ := kv
    intro a0 st n hn hna
    have hcont : ∀ (stx : HStore) (w : HVal), st.length ≤ stx.length →
        (∀ a, a < n → stx.get? a = st.get? a) →
        st.length ≤ (mergeEntriesH fuel rest a0 (setPropH stx a0 k w)).length ∧
        ∀ a, a < n →
          (mergeEntriesH fuel rest a0 (setPropH stx a0 k w)).get? a
            = st.get? a := by
      intro stx w hlen hpres
      have h3len : (setPropH stx a0 k w).length = stx.length :=
        setPropH_length stx a0 k w
      obtain ⟨ihl, ihp⟩ := ih a0 (setPropH stx a0 k w) n (by omega) hna
      refine ⟨by omega, ?_⟩
      intro a ha
      rw [ihp a ha, setPropH_get_ne _ _ _ _ _ (by omega), hpres a ha]
    rw [mergeEntriesH]
    by_cases hm : isMergeObjH st v = true
    · rw [if_pos hm]
      dsimp only
      by_cases ht : truthyH (getPropH st a0 k) = true
      · rw [if_pos ht]
        obtain ⟨hl1, hp1⟩ := hP st (getPropH st a0 k) v
        exact hcont _ _ hl1 (fun a ha => hp1 a (by omega))
      · rw [if_neg ht]
        obtain ⟨hl1, hp1⟩ := hP (st ++ [HCell.obj []]) (HVal.ref st.length) v
        refine hcont _ _ (by simp at hl1 ⊢; omega) ?_
        intro a ha
        rw [hp1 a (by simp; omega), List.get?_append (by omega)]
    · rw [if_neg hm]
      exact hcont st v (le_refl _) (fun a ha => rfl)

/-- `deepMergeH` never writes to a pre-existing cell: the input store is
preserved below its original length, and only grows. -/
theorem deepMergeH_pres : ∀ (fuel : Nat) (st : HStore) (t s : HVal),
    st.length ≤ ((deepMergeH fuel st t s).1).length ∧
    ∀ a, a < st.length → ((deepMergeH fuel st t s).1).get? a = st.get? a := by
  intro fuel
  induction fuel with
  | zero =>
    intro st t s
    rw [deepMergeH]
    exact ⟨le_refl _, fun a ha => rfl⟩
  | succ fuel ih =>
    intro st t s
    rw [deepMergeH]
    by_cases hs : truthyH s = true
    · rw [if_pos hs]
      dsimp only
      obtain ⟨hl, hp⟩ := mergeEntriesH_pres fuel ih (entriesOfH st s) st.length
        (st ++ [copyCellOf st t]) st.length (by simp) (le_refl _)
      constructor
      · simp only [List.length_append, List.length_cons, List.length_nil] at hl
        omega
      · intro a ha
        rw [hp a ha, List.get?_append (by omega)]
    · rw [if_neg hs]
      exact ⟨le_refl _, fun a ha => rfl⟩

/-! ## Claim C4 -/

theorem deepMerge_obj_empty (fs : List (String × JVal)) :
    deepMerge (JVal.obj fs) (JVal.obj []) = JVal.obj fs := by
  rw [deepMerge_truthy (JVal.obj fs) (JVal.obj []) rfl]
  exact mergeEntries_nil _

/-- **C4.** Applying an absent (`undefined`) override fragment to a built
day record via `applyOverrides` returns it unchanged, and an empty
fragment yields a structure deeply equal to the unmodified build; and
merging never mutates the base record in place: in the heap model every
cell that exists before `deepMergeH` runs holds the same value afterwards
(the store only grows), so after the call the base is deeply equal to
what it was before. -/
theorem applyOverrides_noop_and_no_mutation :
    (∀ dayName iso cfg cs ps store,
      applyOverrides
          (dayRecordToJVal (buildDay dayName iso cfg cs ps store).1) JVal.undefined
        = dayRecordToJVal (buildDay dayName iso cfg cs ps store).1 ∧
      applyOverrides
          (dayRecordToJVal (buildDay dayName iso cfg cs ps store).1)
          (JVal.obj [])
        = dayRecordToJVal (buildDay dayName iso cfg cs ps store).1) ∧
    (∀ (fuel : Nat) (st : HStore) (t s : HVal),
      st.length ≤ ((deepMergeH fuel st t s).1).length ∧
      ∀ a, a < st.length →
        ((deepMergeH fuel st t s).1).get? a = st.get? a) := by
  refine ⟨?_, deepMergeH_pres⟩
  intro dayName iso cfg cs ps store
  exact ⟨deepMerge_falsy _ _ rfl, deepMerge_obj_empty _⟩

/-- Witness for C4 at the concrete documents and a concrete two-cell
heap. -/
theorem applyOverrides_noop_and_no_mutation_witness :
    (applyOverrides
        (dayRecordToJVal (buildDay "Monday" "2024-07-22" cDayConfig
          cClubSchedule cPackSchedule cStore).1) JVal.undefined
      = dayRecordToJVal (buildDay "Monday" "2024-07-22" cDayConfig
          cClubSchedule cPackSchedule cStore).1) ∧
    (0 : Nat) < cHStore.length ∧
    ((deepMergeH 2 cHStore (HVal.ref 0) (HVal.ref 1)).1.get? 0
      = cHStore.get? 0) := by
  refine ⟨(applyOverrides_noop_and_no_mutation.1 "Monday" "2024-07-22"
    cDayConfig cClubSchedule cPackSchedule cStore).1, by decide, ?_⟩
  exact (applyOverrides_noop_and_no_mutation.2 2 cHStore (HVal.ref 0)
    (HVal.ref 1)).2 0 (by decide)
